import Mathlib

/-!
# Verification of the forge microVM execution engine

A shallow embedding, in Lean 4, of the parts of the `forge` repository that
its specification talks about:

* the serial-console output parser of `forge-executor/src/firecracker.rs`
  (`parse_execution_output`, `extract_b64_section`, `extract_exit_code`),
  together with the base64 codec and integer parsing it relies on;
* the deterministic hash of `forge-executor/src/runner.rs` (`compute_hash`,
  a SHA-256 of `stdout ++ stderr`);
* the boot-argument construction of `execute_command`;
* `health_check` / `which_binary`;
* the snapshot protocol of `FirecrackerBackend::snapshot`;
* the `VmOrchestrator` registry operations;
* `ExecutionRecord::new` and `BlockRunner::execute`.

Bytes are modelled as `Nat` (with `< 256` side conditions where the `u8`
type matters), byte strings as `List Nat`, and the effectful environment
(filesystem, control-API responses, backend results) as explicit records
passed to the embedded functions.
-/

namespace Forge

/-! ## Byte-level helpers

`ascii` turns a Lean string literal into the list of byte values of its
characters; all marker strings in the source are 7-bit ASCII.
-/

def ascii (s : String) : List Nat := s.toList.map Char.toNat

/-- `FORGE_STDOUT_B64_START` -/
def SOS : List Nat := ascii "FORGE_STDOUT_B64_START"

/-- `FORGE_STDOUT_B64_END` -/
def SOE : List Nat := ascii "FORGE_STDOUT_B64_END"

/-- `FORGE_STDERR_B64_START` -/
def SES : List Nat := ascii "FORGE_STDERR_B64_START"

/-- `FORGE_STDERR_B64_END` -/
def SEE : List Nat := ascii "FORGE_STDERR_B64_END"

/-- `FORGE_EXIT:` -/
def EXITM : List Nat := ascii "FORGE_EXIT:"

/-- Serial-console line separator `\r\n`. -/
def CRLF : List Nat := [13, 10]

/-! ## Substring search

`matchesHere s p` is true when `p` is an initial run of `s`; `findSub s p`
is the least window index at which `p` occurs in `s`, mirroring the Rust
idiom `s.windows(p.len()).position(|w| w == p)` used by the parser.
-/

def matchesHere : List Nat → List Nat → Bool
  | _, [] => true
  | [], _ :: _ => false
  | a :: s, b :: p => a == b && matchesHere s p

def findSub : List Nat → List Nat → Option Nat
  | [], p => if matchesHere [] p then some 0 else none
  | a :: t, p => if matchesHere (a :: t) p then some 0 else (findSub t p).map (· + 1)

theorem matchesHere_iff (s p : List Nat) :
    matchesHere s p = true ↔ ∀ o < p.length, s[o]? = p[o]? := by
  induction p generalizing s with
  | nil => simp [matchesHere]
  | cons b p ih =>
    cases s with
    | nil =>
      simp only [matchesHere, List.length_cons]
      constructor
      · intro h; cases h
      · intro h
        have := h 0 (Nat.succ_pos _)
        simp at this
    | cons a s =>
      simp only [matchesHere, Bool.and_eq_true, beq_iff_eq, ih, List.length_cons]
      constructor
      · rintro ⟨rfl, h⟩ o ho
        cases o with
        | zero => simp
        | succ o => simpa using h o (Nat.lt_of_succ_lt_succ ho)
      · intro h
        refine ⟨?_, fun o ho => ?_⟩
        · have := h 0 (Nat.succ_pos _); simpa using this
        · have := h (o + 1) (Nat.succ_lt_succ ho); simpa using this

theorem matchesHere_length {s p : List Nat} (h : matchesHere s p = true) :
    p.length ≤ s.length := by
  induction p generalizing s with
  | nil => simp
  | cons b p ih =>
    cases s with
    | nil => cases h
    | cons a s =>
      simp only [matchesHere, Bool.and_eq_true] at h
      simpa using ih h.2

theorem matchesHere_append (p r : List Nat) : matchesHere (p ++ r) p = true := by
  induction p with
  | nil => simp [matchesHere]
  | cons a p ih => simpa [matchesHere] using ih

/-- An occurrence of `p` at window index `j` of `s`. -/
def occursAt (s p : List Nat) (j : Nat) : Prop := matchesHere (s.drop j) p = true

instance (s p : List Nat) (j : Nat) : Decidable (occursAt s p j) := by
  unfold occursAt; infer_instance

theorem occursAt_iff (s p : List Nat) (j : Nat) :
    occursAt s p j ↔ ∀ o < p.length, s[j + o]? = p[o]? := by
  unfold occursAt
  rw [matchesHere_iff]
  constructor
  · intro h o ho
    have := h o ho
    rwa [List.getElem?_drop] at this
  · intro h o ho
    rw [List.getElem?_drop]
    exact h o ho

theorem findSub_eq_some {s p : List Nat} {k : Nat}
    (hk : occursAt s p k) (hmin : ∀ j < k, ¬ occursAt s p j) :
    findSub s p = some k := by
  induction s generalizing k with
  | nil =>
    cases k with
    | zero => simpa [findSub, occursAt] using hk
    | succ k =>
      exfalso
      unfold occursAt at hk
      simp only [List.drop_nil] at hk
      exact hmin 0 (Nat.succ_pos _) (by simpa [occursAt] using hk)
  | cons a t ih =>
    cases k with
    | zero =>
      unfold occursAt at hk
      simp only [List.drop_zero] at hk
      simp [findSub, hk]
    | succ k =>
      have h0 : ¬ occursAt (a :: t) p 0 := hmin 0 (Nat.succ_pos _)
      unfold occursAt at h0
      simp only [List.drop_zero] at h0
      have hk' : occursAt t p k := by
        unfold occursAt at hk ⊢
        simpa using hk
      have hmin' : ∀ j < k, ¬ occursAt t p j := by
        intro j hj hocc
        refine hmin (j + 1) (Nat.succ_lt_succ hj) ?_
        unfold occursAt at hocc ⊢
        simpa using hocc
      simp [findSub, h0, ih hk' hmin']

theorem findSub_some_occurs {s p : List Nat} {k : Nat}
    (h : findSub s p = some k) : occursAt s p k := by
  induction s generalizing k with
  | nil =>
    unfold findSub at h
    by_cases hm : matchesHere [] p
    · simp [hm] at h
      subst h
      simpa [occursAt]
    · simp [hm] at h
  | cons a t ih =>
    unfold findSub at h
    by_cases hm : matchesHere (a :: t) p
    · simp [hm] at h
      subst h
      simpa [occursAt]
    · simp [hm] at h
      obtain ⟨k', hk', rfl⟩ := h
      have := ih hk'
      unfold occursAt at this ⊢
      simpa using this

theorem findSub_some_le_length {s p : List Nat} {k : Nat}
    (h : findSub s p = some k) : k ≤ s.length := by
  induction s generalizing k with
  | nil =>
    unfold findSub at h
    by_cases hm : matchesHere [] p
    · simp [hm] at h; omega
    · simp [hm] at h
  | cons a t ih =>
    unfold findSub at h
    by_cases hm : matchesHere (a :: t) p
    · simp [hm] at h; omega
    · simp [hm] at h
      obtain ⟨k', hk', rfl⟩ := h
      have := ih hk'
      simp only [List.length_cons]
      omega

theorem findSub_some_le {s p : List Nat} {k : Nat}
    (h : findSub s p = some k) : k + p.length ≤ s.length := by
  have hocc := findSub_some_occurs h
  unfold occursAt at hocc
  have h1 := matchesHere_length hocc
  have h2 := findSub_some_le_length h
  rw [List.length_drop] at h1
  omega

/-- Occurrence of the pattern right after a prefix `A`, with nothing before:
the first hit of `findSub` sits exactly at `A.length`. -/
theorem findSub_append {A B p : List Nat}
    (hno : ∀ j < A.length, ¬ occursAt (A ++ p ++ B) p j) :
    findSub (A ++ p ++ B) p = some A.length := by
  refine findSub_eq_some ?_ hno
  unfold occursAt
  rw [List.append_assoc, List.drop_left]
  exact matchesHere_append p B

/-- A window starting strictly inside `A` cannot match `p` when `p` carries a
byte `c` (at index `i`) that never occurs in `A` and no initial segment of `p`
up to `i` repeats its first byte.  This is the workhorse for locating marker
strings after a base64 payload. -/
theorem no_early_occurrence_poison {A B p : List Nat} {i c : Nat}
    (hi : p[i]? = some c) (hA : ∀ b ∈ A, b ≠ c)
    (hd : ∀ d, 1 ≤ d → d ≤ i → p[d]? ≠ p[0]?)
    {j : Nat} (hj : j < A.length) : ¬ occursAt (A ++ p ++ B) p j := by
  intro hocc
  rw [occursAt_iff] at hocc
  have hilen : i < p.length := by
    by_contra hge
    rw [List.getElem?_eq_none (by omega)] at hi
    cases hi
  by_cases hcase : j + i < A.length
  · have hj' := hocc i hilen
    rw [hi] at hj'
    rw [List.append_assoc, List.getElem?_append_left hcase] at hj'
    have : c ∈ A := by
      have := List.getElem?_eq_some.mp hj'
      obtain ⟨hlt, hEq⟩ := this
      exact hEq ▸ List.getElem_mem _
    exact hA c this rfl
  · set d := A.length - j with hdef
    have hd1 : 1 ≤ d := by omega
    have hd2 : d ≤ i := by omega
    have hdlen : d < p.length := by omega
    have hp0 : p ≠ [] := by
      intro h; rw [h] at hilen; simp at hilen
    have hjd := hocc d hdlen
    have hAlen : j + d = A.length := by omega
    rw [hAlen, List.append_assoc, List.getElem?_append_right (Nat.le_refl _)] at hjd
    simp only [Nat.sub_self] at hjd
    have hfirst : (p ++ B)[0]? = p[0]? := by
      rcases p with _ | ⟨x, xs⟩
      · exact absurd rfl hp0
      · simp
    rw [hfirst] at hjd
    exact hd d hd1 hd2 hjd.symm

/-! ## Base64 (standard alphabet, canonical padding)

Models the behaviour of `base64::engine::general_purpose::STANDARD`
(`base64` crate): encoding always pads; decoding requires canonical padding
and rejects non-zero trailing bits, invalid symbols and invalid lengths.
-/

/-- Encode one six-bit group as its standard-alphabet ASCII byte. -/
def b64echar (s : Nat) : Nat :=
  if s < 26 then 65 + s
  else if s < 52 then 97 + (s - 26)
  else if s < 62 then 48 + (s - 52)
  else if s = 62 then 43
  else 47

/-- Decode one standard-alphabet ASCII byte back to its six-bit group. -/
def b64dchar (c : Nat) : Option Nat :=
  if 65 ≤ c ∧ c ≤ 90 then some (c - 65)
  else if 97 ≤ c ∧ c ≤ 122 then some (26 + (c - 97))
  else if 48 ≤ c ∧ c ≤ 57 then some (52 + (c - 48))
  else if c = 43 then some 62
  else if c = 47 then some 63
  else none

def b64encode : List Nat → List Nat
  | a :: b :: c :: rest =>
      b64echar (a / 4) :: b64echar (a % 4 * 16 + b / 16) ::
      b64echar (b % 16 * 4 + c / 64) :: b64echar (c % 64) :: b64encode rest
  | [a, b] =>
      [b64echar (a / 4), b64echar (a % 4 * 16 + b / 16), b64echar (b % 16 * 4), 61]
  | [a] =>
      [b64echar (a / 4), b64echar (a % 4 * 16), 61, 61]
  | [] => []

def b64decode : List Nat → Option (List Nat)
  | [] => some []
  | c1 :: c2 :: c3 :: c4 :: rest => do
      let d1 ← b64dchar c1
      let d2 ← b64dchar c2
      if c3 = 61 then
        if c4 = 61 ∧ rest = [] ∧ d2 % 16 = 0 then
          some [d1 * 4 + d2 / 16]
        else none
      else do
        let d3 ← b64dchar c3
        if c4 = 61 then
          if rest = [] ∧ d3 % 4 = 0 then
            some [d1 * 4 + d2 / 16, d2 % 16 * 16 + d3 / 4]
          else none
        else do
          let d4 ← b64dchar c4
          let tail ← b64decode rest
          some ((d1 * 4 + d2 / 16) :: (d2 % 16 * 16 + d3 / 4) :: (d3 % 4 * 64 + d4) :: tail)
  | _ => none

/-- The bytes `b64encode` can emit: the standard alphabet plus padding. -/
def isB64Byte (y : Nat) : Prop :=
  (65 ≤ y ∧ y ≤ 90) ∨ (97 ≤ y ∧ y ≤ 122) ∨ (48 ≤ y ∧ y ≤ 57) ∨ y = 43 ∨ y = 47 ∨ y = 61

instance (y : Nat) : Decidable (isB64Byte y) := by
  unfold isB64Byte; infer_instance

theorem b64echar_isB64Byte (s : Nat) : isB64Byte (b64echar s) := by
  unfold b64echar isB64Byte
  split_ifs <;> omega

theorem b64encode_bytes {xs : List Nat} {y : Nat} (hy : y ∈ b64encode xs) :
    isB64Byte y := by
  induction xs using b64encode.induct with
  | case1 a b c rest ih =>
    unfold b64encode at hy
    simp only [List.mem_cons] at hy
    rcases hy with rfl | rfl | rfl | rfl | h
    · exact b64echar_isB64Byte _
    · exact b64echar_isB64Byte _
    · exact b64echar_isB64Byte _
    · exact b64echar_isB64Byte _
    · exact ih h
  | case2 a b =>
    unfold b64encode at hy
    simp only [List.mem_cons, List.not_mem_nil, or_false] at hy
    rcases hy with rfl | rfl | rfl | rfl
    · exact b64echar_isB64Byte _
    · exact b64echar_isB64Byte _
    · exact b64echar_isB64Byte _
    · unfold isB64Byte; omega
  | case3 a =>
    unfold b64encode at hy
    simp only [List.mem_cons, List.not_mem_nil, or_false] at hy
    rcases hy with rfl | rfl | rfl | rfl
    · exact b64echar_isB64Byte _
    · exact b64echar_isB64Byte _
    · unfold isB64Byte; omega
    · unfold isB64Byte; omega
  | case4 => cases hy

theorem isB64Byte_ne {y : Nat} (h : isB64Byte y) :
    y ≠ 13 ∧ y ≠ 10 ∧ y ≠ 95 ∧ y ≠ 58 := by
  unfold isB64Byte at h; omega

theorem b64dchar_echar {s : Nat} (hs : s < 64) : b64dchar (b64echar s) = some s := by
  unfold b64echar b64dchar
  split_ifs <;> simp_all <;> omega

theorem b64echar_ne_pad (s : Nat) : b64echar s ≠ 61 := by
  unfold b64echar
  split_ifs <;> omega

theorem b64_round_trip {xs : List Nat} (hxs : ∀ b ∈ xs, b < 256) :
    b64decode (b64encode xs) = some xs := by
  induction xs using b64encode.induct with
  | case1 a b c rest ih =>
    have ha : a < 256 := hxs a (by simp)
    have hb : b < 256 := hxs b (by simp)
    have hc : c < 256 := hxs c (by simp)
    have hrest : ∀ x ∈ rest, x < 256 := fun x hx => hxs x (by simp [hx])
    have he1 : b64dchar (b64echar (a / 4)) = some (a / 4) := b64dchar_echar (by omega)
    have he2 : b64dchar (b64echar (a % 4 * 16 + b / 16)) = some (a % 4 * 16 + b / 16) :=
      b64dchar_echar (by omega)
    have he3 : b64dchar (b64echar (b % 16 * 4 + c / 64)) = some (b % 16 * 4 + c / 64) :=
      b64dchar_echar (by omega)
    have he4 : b64dchar (b64echar (c % 64)) = some (c % 64) := b64dchar_echar (by omega)
    unfold b64encode b64decode
    simp [he1, he2, he3, he4, b64echar_ne_pad, ih hrest]
    omega
  | case2 a b =>
    have ha : a < 256 := hxs a (by simp)
    have hb : b < 256 := hxs b (by simp)
    have he1 : b64dchar (b64echar (a / 4)) = some (a / 4) := b64dchar_echar (by omega)
    have he2 : b64dchar (b64echar (a % 4 * 16 + b / 16)) = some (a % 4 * 16 + b / 16) :=
      b64dchar_echar (by omega)
    have he3 : b64dchar (b64echar (b % 16 * 4)) = some (b % 16 * 4) :=
      b64dchar_echar (by omega)
    unfold b64encode b64decode
    simp [he1, he2, he3, b64echar_ne_pad, Nat.mul_mod_left]
    omega
  | case3 a =>
    have ha : a < 256 := hxs a (by simp)
    have he1 : b64dchar (b64echar (a / 4)) = some (a / 4) := b64dchar_echar (by omega)
    have he2 : b64dchar (b64echar (a % 4 * 16)) = some (a % 4 * 16) :=
      b64dchar_echar (by omega)
    unfold b64encode b64decode
    simp [he1, he2, Nat.mul_mod_left]
    omega
  | case4 =>
    rfl

/-! ## UTF-8, `str::trim`, and `i32` parsing/formatting

`extract_exit_code` goes through `std::str::from_utf8` (strict UTF-8
validation), `str::trim` (Unicode `White_Space`), and `str::parse::<i32>`.
Each is modelled below; code points are `Nat`.
-/

/-- Continuation byte of a UTF-8 sequence: `0x80..=0xBF`. -/
def utf8cont (x : Nat) : Bool := 128 ≤ x && x ≤ 191

/-- Admissible second byte of a three-byte sequence (excludes overlong forms
and surrogates, as `std::str::from_utf8` does). -/
def utf8second3 (b b2 : Nat) : Bool :=
  if b = 224 then 160 ≤ b2 && b2 ≤ 191
  else if b = 237 then 128 ≤ b2 && b2 ≤ 159
  else utf8cont b2

/-- Admissible second byte of a four-byte sequence (excludes overlong forms
and code points above `0x10FFFF`). -/
def utf8second4 (b b2 : Nat) : Bool :=
  if b = 240 then 144 ≤ b2 && b2 ≤ 191
  else if b = 244 then 128 ≤ b2 && b2 ≤ 143
  else utf8cont b2

/-- Decode the first code point of a UTF-8 sequence starting with byte `b`
followed by `rest`; yields the code point and how many bytes of `rest` it
consumed. -/
def utf8first (b : Nat) (rest : List Nat) : Option (Nat × Nat) :=
  if b < 128 then some (b, 0)
  else if 194 ≤ b && b ≤ 223 then
    match rest with
    | b2 :: _ =>
      if utf8cont b2 then some ((b - 192) * 64 + (b2 - 128), 1) else none
    | [] => none
  else if 224 ≤ b && b ≤ 239 then
    match rest with
    | b2 :: b3 :: _ =>
      if utf8second3 b b2 && utf8cont b3 then
        some ((b - 224) * 4096 + (b2 - 128) * 64 + (b3 - 128), 2)
      else none
    | _ => none
  else if 240 ≤ b && b ≤ 244 then
    match rest with
    | b2 :: b3 :: b4 :: _ =>
      if utf8second4 b b2 && utf8cont b3 && utf8cont b4 then
        some ((b - 240) * 262144 + (b2 - 128) * 4096 + (b3 - 128) * 64 + (b4 - 128), 3)
      else none
    | _ => none
  else none

/-- Strict UTF-8 decoding (RFC 3629), as `std::str::from_utf8` validates it:
rejects overlong forms, surrogates and code points above `0x10FFFF`. -/
def utf8decode : List Nat → Option (List Nat)
  | [] => some []
  | b :: rest =>
    match utf8first b rest with
    | none => none
    | some (cp, k) => (utf8decode (rest.drop k)).map (cp :: ·)
termination_by l => l.length
decreasing_by
  simp only [List.length_cons, List.length_drop]
  omega

theorem utf8first_lt128 {b : Nat} (rest : List Nat) (hb : b < 128) :
    utf8first b rest = some (b, 0) := by
  unfold utf8first
  rw [if_pos hb]

/-- On pure ASCII input, strict UTF-8 decoding is the identity. -/
theorem utf8decode_ascii {xs : List Nat} (h : ∀ b ∈ xs, b < 128) :
    utf8decode xs = some xs := by
  induction xs with
  | nil => rw [utf8decode]
  | cons a t ih =>
    rw [utf8decode, utf8first_lt128 t (h a (by simp))]
    simp only [List.drop_zero]
    rw [ih (fun b hb => h b (by simp [hb]))]
    rfl

/-- The Unicode `White_Space` code points, as used by `char::is_whitespace`. -/
def isRustWs (c : Nat) : Bool :=
  c == 9 || c == 10 || c == 11 || c == 12 || c == 13 || c == 32 ||
  c == 133 || c == 160 || c == 5760 || (8192 ≤ c && c ≤ 8202) ||
  c == 8232 || c == 8233 || c == 8239 || c == 8287 || c == 12288

/-- `str::trim`: drop `White_Space` from both ends. -/
def trimRust (cs : List Nat) : List Nat :=
  ((cs.dropWhile isRustWs).reverse.dropWhile isRustWs).reverse

theorem dropWhile_eq_self_of_none {p : Nat → Bool} {cs : List Nat}
    (h : ∀ c ∈ cs, p c = false) : cs.dropWhile p = cs := by
  cases cs with
  | nil => rfl
  | cons a t => simp [List.dropWhile_cons, h a (by simp)]

theorem trimRust_of_no_ws {cs : List Nat} (h : ∀ c ∈ cs, isRustWs c = false) :
    trimRust cs = cs := by
  unfold trimRust
  rw [dropWhile_eq_self_of_none h]
  rw [dropWhile_eq_self_of_none (by intro c hc; exact h c (by simpa using hc))]
  exact List.reverse_reverse cs

/-- Decimal digit run of `n`, most-significant first, as ASCII bytes. -/
def natDecimal (n : Nat) : List Nat :=
  if n < 10 then [48 + n] else natDecimal (n / 10) ++ [48 + n % 10]
termination_by n
decreasing_by omega

/-- Digits-only string to value; `none` when a non-digit appears. -/
def digitsToNat? (cs : List Nat) : Option Nat :=
  if cs.all (fun c => 48 ≤ c && c ≤ 57) then
    some (cs.foldl (fun a c => a * 10 + (c - 48)) 0)
  else none

theorem natDecimal_digits {n c : Nat} (hc : c ∈ natDecimal n) : 48 ≤ c ∧ c ≤ 57 := by
  induction n using Nat.strong_induction_on with
  | _ n ih =>
    rw [natDecimal] at hc
    by_cases hn : n < 10
    · rw [if_pos hn] at hc
      simp only [List.mem_singleton] at hc
      omega
    · rw [if_neg hn] at hc
      rw [List.mem_append] at hc
      rcases hc with hc | hc
      · exact ih (n / 10) (by omega) hc
      · simp only [List.mem_singleton] at hc
        have := Nat.mod_lt n (show 0 < 10 by omega)
        omega

theorem natDecimal_ne_nil (n : Nat) : natDecimal n ≠ [] := by
  rw [natDecimal]
  split_ifs <;> simp

theorem natDecimal_foldl (n : Nat) :
    (natDecimal n).foldl (fun a c => a * 10 + (c - 48)) 0 = n := by
  suffices h : ∀ m acc, (natDecimal m).foldl (fun a c => a * 10 + (c - 48)) acc =
      acc * 10 ^ (natDecimal m).length + m by
    have := h n 0
    simpa using this
  intro m
  induction m using Nat.strong_induction_on with
  | _ m ih =>
    intro acc
    rw [natDecimal]
    by_cases hm : m < 10
    · simp [if_pos hm]
    · rw [if_neg hm, List.foldl_append, ih (m / 10) (by omega) acc]
      simp only [List.foldl_cons, List.foldl_nil, List.length_append,
        List.length_cons, List.length_nil]
      have hmod : 48 + m % 10 - 48 = m % 10 := by omega
      rw [hmod, pow_succ]
      have h10 : m / 10 * 10 + m % 10 = m := by omega
      have expand : (acc * 10 ^ (natDecimal (m / 10)).length + m / 10) * 10 + m % 10
          = acc * (10 ^ (natDecimal (m / 10)).length * 10) + (m / 10 * 10 + m % 10) := by
        ring
      rw [expand, h10]

theorem digitsToNat?_natDecimal (n : Nat) : digitsToNat? (natDecimal n) = some n := by
  unfold digitsToNat?
  rw [if_pos]
  · rw [natDecimal_foldl]
  · rw [List.all_eq_true]
    intro c hc
    have := natDecimal_digits hc
    simp only [Bool.and_eq_true, decide_eq_true_eq]
    omega

/-- Magnitude-and-range part of `str::parse::<i32>`. -/
def parseI32Mag (sign : Int) (ds : List Nat) : Option Int :=
  if ds = [] then none
  else
    (digitsToNat? ds).bind fun n =>
      if sign = 1 then if n ≤ 2147483647 then some (Int.ofNat n) else none
      else if n ≤ 2147483648 then some (-(Int.ofNat n)) else none

/-- `str::parse::<i32>`: optional sign, digits, `i32` range check. -/
def parseI32 (cs : List Nat) : Option Int :=
  match cs with
  | [] => none
  | c :: rest =>
    if c = 43 then parseI32Mag 1 rest
    else if c = 45 then parseI32Mag (-1) rest
    else parseI32Mag 1 (c :: rest)

/-- Decimal rendering of an `i32`, as Rust's `Display` for `i32` produces. -/
def i32_to_string (code : Int) : List Nat :=
  if code < 0 then 45 :: natDecimal code.natAbs else natDecimal code.toNat

theorem parseI32_neg_sign (rest : List Nat) : parseI32 (45 :: rest) = parseI32Mag (-1) rest := by
  simp [parseI32]

theorem parseI32_no_sign {d : Nat} (rest : List Nat) (h43 : d ≠ 43) (h45 : d ≠ 45) :
    parseI32 (d :: rest) = parseI32Mag 1 (d :: rest) := by
  simp [parseI32, h43, h45]

theorem parseI32_round_trip {code : Int}
    (h1 : -2147483648 ≤ code) (h2 : code ≤ 2147483647) :
    parseI32 (i32_to_string code) = some code := by
  unfold i32_to_string
  by_cases hneg : code < 0
  · rw [if_pos hneg, parseI32_neg_sign]
    unfold parseI32Mag
    rw [if_neg (natDecimal_ne_nil _), digitsToNat?_natDecimal, Option.some_bind]
    rw [if_neg (show ¬((-1 : Int) = 1) by omega),
      if_pos (show code.natAbs ≤ 2147483648 by omega)]
    simp only [Option.some.injEq, Int.ofNat_eq_coe]
    omega
  · rw [if_neg hneg]
    have hhead : ∃ d ds, natDecimal code.toNat = d :: ds ∧ 48 ≤ d ∧ d ≤ 57 := by
      rcases hd : natDecimal code.toNat with _ | ⟨d, ds⟩
      · exact absurd hd (natDecimal_ne_nil _)
      · exact ⟨d, ds, rfl, natDecimal_digits (hd ▸ List.mem_cons_self d ds)⟩
    obtain ⟨d, ds, hd, hd1, hd2⟩ := hhead
    rw [hd, parseI32_no_sign ds (by omega) (by omega), ← hd]
    unfold parseI32Mag
    rw [if_neg (natDecimal_ne_nil _), digitsToNat?_natDecimal, Option.some_bind]
    rw [if_pos rfl, if_pos (show code.toNat ≤ 2147483647 by omega)]
    simp only [Option.some.injEq, Int.ofNat_eq_coe]
    omega

/-! ## The serial-console output parser

Shallow embedding of `parse_execution_output`, `extract_b64_section` and
`extract_exit_code` from `forge-executor/src/firecracker.rs`.
-/

/-- Rust's `iter().position(pred)`. -/
def firstIdxWhere (p : Nat → Bool) : List Nat → Option Nat
  | [] => none
  | a :: t => if p a then some 0 else (firstIdxWhere p t).map (· + 1)

/-- `extract_b64_section`: find `start_marker ++ CRLF`, then the next
`end_marker`; strip `\r`/`\n` from the window and base64-decode it. -/
def extract_b64_section (raw start_marker end_marker : List Nat) : Option (List Nat) :=
  (findSub raw (start_marker ++ CRLF)).bind fun pos =>
    (findSub (raw.drop (pos + (start_marker ++ CRLF).length)) end_marker).bind fun q =>
      b64decode (((raw.drop (pos + (start_marker ++ CRLF).length)).take q).filter fun b =>
        b != 13 && b != 10)

/-- `extract_exit_code`: find `FORGE_EXIT:`, take bytes up to the next CR/LF,
validate UTF-8, trim whitespace, parse as `i32`. -/
def extract_exit_code (raw : List Nat) : Option Int :=
  (findSub raw EXITM).bind fun pos =>
    (utf8decode ((raw.drop (pos + EXITM.length)).take
      ((firstIdxWhere (fun b => b == 13 || b == 10) (raw.drop (pos + EXITM.length))).getD
        (raw.drop (pos + EXITM.length)).length))).bind fun cps =>
      parseI32 (trimRust cps)

/-- `parse_execution_output`: all three extractions must succeed, otherwise
fall back to `(raw, [], -1)`. -/
def parse_execution_output (raw : List Nat) : List Nat × List Nat × Int :=
  let stdout := extract_b64_section raw SOS SOE
  let stderr := extract_b64_section raw SES SEE
  let exit_code := extract_exit_code raw
  match stdout, stderr, exit_code with
  | some out, some err, some code => (out, err, code)
  | _, _, _ => (raw, [], -1)

/-- The serial-framed form described by the specification: each marker on its
own CRLF-terminated line, payloads base64-encoded, then `FORGE_EXIT:<code>`. -/
def encode_execution_output (out err : List Nat) (code : Int) : List Nat :=
  SOS ++ CRLF ++ b64encode out ++ CRLF ++ SOE ++ CRLF ++
  SES ++ CRLF ++ b64encode err ++ CRLF ++ SEE ++ CRLF ++
  EXITM ++ i32_to_string code ++ CRLF

theorem firstIdxWhere_append {p : Nat → Bool} {A : List Nat} {c : Nat} {r : List Nat}
    (hA : ∀ x ∈ A, p x = false) (hc : p c = true) :
    firstIdxWhere p (A ++ c :: r) = some A.length := by
  induction A with
  | nil => simp [firstIdxWhere, hc]
  | cons a t ih =>
    have ha : p a = false := hA a (by simp)
    have ht : ∀ x ∈ t, p x = false := fun x hx => hA x (by simp [hx])
    simp [firstIdxWhere, ha, ih ht]

theorem filter_b64_crlf {Eo : List Nat} (hEo : ∀ b ∈ Eo, isB64Byte b) :
    (Eo ++ CRLF).filter (fun b => b != 13 && b != 10) = Eo := by
  rw [List.filter_append]
  have h1 : Eo.filter (fun b => b != 13 && b != 10) = Eo := by
    rw [List.filter_eq_self]
    intro b hb
    have := isB64Byte_ne (hEo b hb)
    simp only [Bool.and_eq_true, bne_iff_ne, ne_eq]
    exact ⟨this.1, this.2.1⟩
  have h2 : CRLF.filter (fun b => b != 13 && b != 10) = [] := by decide
  rw [h1, h2, List.append_nil]

/-- Bytes of the rendered `i32`: a minus sign or decimal digits. -/
theorem i32_to_string_bytes {code : Int} {b : Nat} (hb : b ∈ i32_to_string code) :
    b = 45 ∨ (48 ≤ b ∧ b ≤ 57) := by
  unfold i32_to_string at hb
  by_cases hneg : code < 0
  · rw [if_pos hneg] at hb
    rcases List.mem_cons.mp hb with rfl | hb'
    · left; rfl
    · right; exact natDecimal_digits hb'
  · rw [if_neg hneg] at hb
    right; exact natDecimal_digits hb

/-! ## Round-trip: locating the markers inside the framed form -/

theorem SOS_length : SOS.length = 22 := by decide

theorem SOE_length : SOE.length = 20 := by decide

theorem SES_length : SES.length = 22 := by decide

theorem SEE_length : SEE.length = 20 := by decide

theorem EXITM_length : EXITM.length = 11 := by decide

/-- A pattern sitting at the very front is found at index 0. -/
theorem findSub_prefix {p B : List Nat} : findSub (p ++ B) p = some 0 := by
  have h := findSub_append (A := []) (B := B) (p := p)
    (fun j hj => absurd hj (Nat.not_lt_zero j))
  simpa using h

/-- Generic extraction of one base64 section when the surrounding text has the
expected frame shape and the start marker is first found right after `Pre`.
The end marker must carry `_` (byte 95) at index 5 and not repeat its first
byte within its first six bytes. -/
theorem extract_b64_section_shape {Pre Post payload sm em : List Nat}
    (hpay : ∀ b ∈ payload, b < 256)
    (hfind : findSub (Pre ++ (sm ++ CRLF) ++ (b64encode payload ++ CRLF) ++ em ++ Post)
      (sm ++ CRLF) = some Pre.length)
    (hem5 : em[5]? = some 95)
    (hemd : ∀ d, 1 ≤ d → d ≤ 5 → em[d]? ≠ em[0]?) :
    extract_b64_section (Pre ++ (sm ++ CRLF) ++ (b64encode payload ++ CRLF) ++ em ++ Post)
      sm em = some payload := by
  have hEo : ∀ b ∈ b64encode payload, isB64Byte b := fun b hb => b64encode_bytes hb
  unfold extract_b64_section
  rw [hfind, Option.some_bind]
  have hdrop : (Pre ++ (sm ++ CRLF) ++ (b64encode payload ++ CRLF) ++ em ++ Post).drop
      (Pre.length + (sm ++ CRLF).length) =
      (b64encode payload ++ CRLF) ++ em ++ Post := by
    have hs : Pre ++ (sm ++ CRLF) ++ (b64encode payload ++ CRLF) ++ em ++ Post =
        (Pre ++ (sm ++ CRLF)) ++ ((b64encode payload ++ CRLF) ++ em ++ Post) := by
      simp [List.append_assoc]
    rw [hs, show Pre.length + (sm ++ CRLF).length = (Pre ++ (sm ++ CRLF)).length from
      (List.length_append _ _).symm]
    exact List.drop_left _ _
  rw [hdrop]
  have hA95 : ∀ b ∈ b64encode payload ++ CRLF, b ≠ 95 := by
    intro b hb
    rcases List.mem_append.mp hb with h | h
    · exact (isB64Byte_ne (hEo b h)).2.2.1
    · simp only [CRLF, List.mem_cons, List.not_mem_nil, or_false] at h
      rcases h with rfl | rfl <;> omega
  have h2 : findSub ((b64encode payload ++ CRLF) ++ em ++ Post) em =
      some (b64encode payload ++ CRLF).length :=
    findSub_append (fun j hj => no_early_occurrence_poison hem5 hA95 hemd hj)
  rw [h2, Option.some_bind]
  have htake : ((b64encode payload ++ CRLF) ++ em ++ Post).take
      (b64encode payload ++ CRLF).length = b64encode payload ++ CRLF := by
    rw [List.append_assoc]
    exact List.take_left _ _
  rw [htake, filter_b64_crlf hEo, b64_round_trip hpay]

/-- The stderr start marker `FORGE_STDERR_B64_START\r\n` is first found right
after the stdout frame: it cannot occur inside the stdout markers (their text
differs at offset 9, `STDOUT` vs `STDERR`), inside the base64 payload (no `_`
byte there), or across the CRLF boundaries. -/
theorem findSub_SESC {Eo Rest : List Nat} (hEo : ∀ b ∈ Eo, isB64Byte b) :
    findSub ((SOS ++ CRLF ++ Eo ++ CRLF ++ SOE ++ CRLF) ++ (SES ++ CRLF) ++ Rest)
      (SES ++ CRLF) = some (SOS ++ CRLF ++ Eo ++ CRLF ++ SOE ++ CRLF).length := by
  apply findSub_append
  intro j hj hocc
  rw [occursAt_iff] at hocc
  set A := SOS ++ CRLF ++ Eo ++ CRLF ++ SOE ++ CRLF with hA
  set s := A ++ (SES ++ CRLF) ++ Rest with hs
  have hAlen : A.length = 48 + Eo.length := by
    rw [hA]
    simp only [List.length_append, SOS_length, SOE_length, CRLF,
      List.length_cons, List.length_nil]
    omega
  rw [hAlen] at hj
  have hp0 : s[j]? = some 70 := by
    have h := hocc 0 (by decide)
    rw [show ((SES ++ CRLF) : List Nat)[0]? = some 70 from by decide] at h
    simpa using h
  have hp5 : s[j + 5]? = some 95 := by
    have h := hocc 5 (by decide)
    rwa [show ((SES ++ CRLF) : List Nat)[5]? = some 95 from by decide] at h
  have hp9 : s[j + 9]? = some 69 := by
    have h := hocc 9 (by decide)
    rwa [show ((SES ++ CRLF) : List Nat)[9]? = some 69 from by decide] at h
  have hsq : ∀ q, q < 48 + Eo.length → s[q]? = A[q]? := by
    intro q hq
    rw [hs, List.append_assoc]
    exact List.getElem?_append_left (by rw [hAlen]; omega)
  have hAeq : A = (SOS ++ CRLF) ++ (Eo ++ (CRLF ++ SOE ++ CRLF)) := by
    rw [hA]
    simp [List.append_assoc]
  have hM1len : ((SOS ++ CRLF) : List Nat).length = 24 := by decide
  have hr1 : ∀ q, q < 24 → A[q]? = (SOS ++ CRLF)[q]? := by
    intro q hq
    rw [hAeq]
    exact List.getElem?_append_left (by rw [hM1len]; omega)
  have hr2 : ∀ q, 24 ≤ q → q < 24 + Eo.length → A[q]? = Eo[q - 24]? := by
    intro q hq1 hq2
    rw [hAeq, List.getElem?_append_right (by rw [hM1len]; omega), hM1len]
    exact List.getElem?_append_left (by omega)
  have hr3 : ∀ q, 24 + Eo.length ≤ q →
      A[q]? = (CRLF ++ SOE ++ CRLF)[q - 24 - Eo.length]? := by
    intro q hq
    rw [hAeq, List.getElem?_append_right (by rw [hM1len]; omega), hM1len,
      List.getElem?_append_right (by omega)]
  rcases Nat.lt_or_ge j 24 with hcase1 | hger
  · have h0 : ((SOS ++ CRLF) : List Nat)[j]? = some 70 := by
      rw [← hr1 j hcase1, ← hsq j (by omega)]
      exact hp0
    have hj0 : j = 0 := by
      have hdec : ∀ q, q < 24 → ((SOS ++ CRLF) : List Nat)[q]? = some 70 → q = 0 := by
        decide
      exact hdec j hcase1 h0
    subst hj0
    have h9 : ((SOS ++ CRLF) : List Nat)[9]? = some 69 := by
      rw [← hr1 9 (by omega), ← hsq 9 (by omega)]
      simpa using hp9
    exact absurd ((by decide : ((SOS ++ CRLF) : List Nat)[9]? = some 79).symm.trans h9)
      (by decide)
  · rcases Nat.lt_or_ge j (24 + Eo.length) with hcase2 | hger2
    · rcases Nat.lt_or_ge (j + 5) (24 + Eo.length) with hc | hc
      · have h5 : Eo[j + 5 - 24]? = some 95 := by
          rw [← hr2 (j + 5) (by omega) hc, ← hsq (j + 5) (by omega)]
          exact hp5
        have hmem : (95 : Nat) ∈ Eo := by
          obtain ⟨hlt, heq⟩ := List.getElem?_eq_some.mp h5
          exact heq ▸ List.getElem_mem _
        exact absurd (hEo 95 hmem) (by decide)
      · have h5 : ((CRLF ++ SOE ++ CRLF) : List Nat)[j + 5 - 24 - Eo.length]? = some 95 := by
          rw [← hr3 (j + 5) hc, ← hsq (j + 5) (by omega)]
          exact hp5
        have hm5 : j + 5 - 24 - Eo.length < 5 := by omega
        have hdec : ∀ m, m < 5 → ((CRLF ++ SOE ++ CRLF) : List Nat)[m]? ≠ some 95 := by
          decide
        exact hdec _ hm5 h5
    · have h0 : ((CRLF ++ SOE ++ CRLF) : List Nat)[j - 24 - Eo.length]? = some 70 := by
        rw [← hr3 j hger2, ← hsq j (by omega)]
        exact hp0
      have hmlt : j - 24 - Eo.length < 24 := by omega
      have hdec : ∀ m, m < 24 → ((CRLF ++ SOE ++ CRLF) : List Nat)[m]? = some 70 → m = 2 := by
        decide
      have hm2 : j - 24 - Eo.length = 2 := hdec _ hmlt h0
      have h9 : ((CRLF ++ SOE ++ CRLF) : List Nat)[11]? = some 69 := by
        have e1 : j + 9 - 24 - Eo.length = 11 := by omega
        rw [← e1, ← hr3 (j + 9) (by omega), ← hsq (j + 9) (by omega)]
        exact hp9
      exact absurd ((by decide : ((CRLF ++ SOE ++ CRLF) : List Nat)[11]? = some 79).symm.trans h9)
        (by decide)

/-- `FORGE_EXIT:` is first found after both framed sections: its colon byte
(58) occurs nowhere earlier in the frame, and none of its bytes 1..10 equals
its leading `F`. -/
theorem findSub_EXITM {Eo Ee Rest : List Nat}
    (hEo : ∀ b ∈ Eo, isB64Byte b) (hEe : ∀ b ∈ Ee, isB64Byte b) :
    findSub ((SOS ++ CRLF ++ Eo ++ CRLF ++ SOE ++ CRLF ++ SES ++ CRLF ++ Ee ++ CRLF ++
        SEE ++ CRLF) ++ EXITM ++ Rest) EXITM =
      some (SOS ++ CRLF ++ Eo ++ CRLF ++ SOE ++ CRLF ++ SES ++ CRLF ++ Ee ++ CRLF ++
        SEE ++ CRLF).length := by
  apply findSub_append
  intro j hj
  have hA58 : ∀ b ∈ SOS ++ CRLF ++ Eo ++ CRLF ++ SOE ++ CRLF ++ SES ++ CRLF ++ Ee ++
      CRLF ++ SEE ++ CRLF, b ≠ 58 := by
    intro b hb
    simp only [List.append_assoc, List.mem_append] at hb
    have hSOS : ∀ x ∈ SOS, x ≠ 58 := by decide
    have hSOE : ∀ x ∈ SOE, x ≠ 58 := by decide
    have hSES : ∀ x ∈ SES, x ≠ 58 := by decide
    have hSEE : ∀ x ∈ SEE, x ≠ 58 := by decide
    have hCRLF : ∀ x ∈ CRLF, x ≠ 58 := by decide
    rcases hb with h | h | h | h | h | h | h | h | h | h | h | h
    · exact hSOS b h
    · exact hCRLF b h
    · exact (isB64Byte_ne (hEo b h)).2.2.2
    · exact hCRLF b h
    · exact hSOE b h
    · exact hCRLF b h
    · exact hSES b h
    · exact hCRLF b h
    · exact (isB64Byte_ne (hEe b h)).2.2.2
    · exact hCRLF b h
    · exact hSEE b h
    · exact hCRLF b h
  exact no_early_occurrence_poison (i := 10) (c := 58) (by decide) hA58
    (fun d h1 h10 => by interval_cases d <;> decide) hj

/-- Parser round-trip (claim C1): serial-framing any byte payloads and any
`i32` exit code, then parsing, recovers them exactly. -/
theorem parser_round_trip (out err : List Nat) (code : Int)
    (hout : ∀ b ∈ out, b < 256) (herr : ∀ b ∈ err, b < 256)
    (hlo : -2147483648 ≤ code) (hhi : code ≤ 2147483647) :
    parse_execution_output (encode_execution_output out err code) = (out, err, code) := by
  have hEo : ∀ b ∈ b64encode out, isB64Byte b := fun b hb => b64encode_bytes hb
  have hEe : ∀ b ∈ b64encode err, isB64Byte b := fun b hb => b64encode_bytes hb
  have hstdout : extract_b64_section (encode_execution_output out err code) SOS SOE =
      some out := by
    have hsplit : encode_execution_output out err code =
        ([] : List Nat) ++ (SOS ++ CRLF) ++ (b64encode out ++ CRLF) ++ SOE ++
          (CRLF ++ SES ++ CRLF ++ b64encode err ++ CRLF ++ SEE ++ CRLF ++ EXITM ++
            i32_to_string code ++ CRLF) := by
      simp [encode_execution_output, List.append_assoc]
    rw [hsplit]
    apply extract_b64_section_shape hout _ (by decide)
      (fun d hd1 hd5 => by interval_cases d <;> decide)
    simp only [List.nil_append, List.length_nil]
    rw [show (SOS ++ CRLF) ++ (b64encode out ++ CRLF) ++ SOE ++
        (CRLF ++ SES ++ CRLF ++ b64encode err ++ CRLF ++ SEE ++ CRLF ++ EXITM ++
          i32_to_string code ++ CRLF) =
        (SOS ++ CRLF) ++ ((b64encode out ++ CRLF) ++ (SOE ++
        (CRLF ++ SES ++ CRLF ++ b64encode err ++ CRLF ++ SEE ++ CRLF ++ EXITM ++
          i32_to_string code ++ CRLF))) from by simp [List.append_assoc]]
    exact findSub_prefix
  have hstderr : extract_b64_section (encode_execution_output out err code) SES SEE =
      some err := by
    have hsplit : encode_execution_output out err code =
        (SOS ++ CRLF ++ b64encode out ++ CRLF ++ SOE ++ CRLF) ++ (SES ++ CRLF) ++
          (b64encode err ++ CRLF) ++ SEE ++
          (CRLF ++ EXITM ++ i32_to_string code ++ CRLF) := by
      simp [encode_execution_output, List.append_assoc]
    rw [hsplit]
    apply extract_b64_section_shape herr _ (by decide)
      (fun d hd1 hd5 => by interval_cases d <;> decide)
    rw [show (SOS ++ CRLF ++ b64encode out ++ CRLF ++ SOE ++ CRLF) ++ (SES ++ CRLF) ++
        (b64encode err ++ CRLF) ++ SEE ++
          (CRLF ++ EXITM ++ i32_to_string code ++ CRLF) =
        (SOS ++ CRLF ++ b64encode out ++ CRLF ++ SOE ++ CRLF) ++ (SES ++ CRLF) ++
        ((b64encode err ++ CRLF) ++ (SEE ++
          (CRLF ++ EXITM ++ i32_to_string code ++ CRLF))) from by
      simp [List.append_assoc]]
    exact findSub_SESC hEo
  have hexit : extract_exit_code (encode_execution_output out err code) = some code := by
    have hsplit : encode_execution_output out err code =
        (SOS ++ CRLF ++ b64encode out ++ CRLF ++ SOE ++ CRLF ++ SES ++ CRLF ++
          b64encode err ++ CRLF ++ SEE ++ CRLF) ++ EXITM ++
          (i32_to_string code ++ CRLF) := by
      simp [encode_execution_output, List.append_assoc]
    rw [hsplit]
    unfold extract_exit_code
    rw [findSub_EXITM hEo hEe, Option.some_bind]
    have hdrop : (((SOS ++ CRLF ++ b64encode out ++ CRLF ++ SOE ++ CRLF ++ SES ++ CRLF ++
        b64encode err ++ CRLF ++ SEE ++ CRLF) ++ EXITM ++
          (i32_to_string code ++ CRLF))).drop
        ((SOS ++ CRLF ++ b64encode out ++ CRLF ++ SOE ++ CRLF ++ SES ++ CRLF ++
          b64encode err ++ CRLF ++ SEE ++ CRLF).length + EXITM.length) =
        i32_to_string code ++ CRLF := by
      rw [show ((SOS ++ CRLF ++ b64encode out ++ CRLF ++ SOE ++ CRLF ++ SES ++ CRLF ++
          b64encode err ++ CRLF ++ SEE ++ CRLF).length + EXITM.length) =
          ((SOS ++ CRLF ++ b64encode out ++ CRLF ++ SOE ++ CRLF ++ SES ++ CRLF ++
          b64encode err ++ CRLF ++ SEE ++ CRLF) ++ EXITM).length from
        (List.length_append _ _).symm]
      exact List.drop_left _ _
    rw [hdrop]
    have hD : ∀ x ∈ i32_to_string code, (x == 13 || x == 10) = false := by
      intro x hx
      rcases i32_to_string_bytes hx with h | h
      · subst h; decide
      · simp only [Bool.or_eq_false_iff, beq_eq_false_iff_ne, ne_eq]
        omega
    have hfi : firstIdxWhere (fun b => b == 13 || b == 10) (i32_to_string code ++ CRLF) =
        some (i32_to_string code).length := by
      have h := firstIdxWhere_append (c := 13) (r := [10]) hD (by decide)
      simpa [CRLF] using h
    rw [hfi, Option.getD_some]
    rw [show (i32_to_string code ++ CRLF).take (i32_to_string code).length =
      i32_to_string code from List.take_left _ _]
    have hDlt : ∀ b ∈ i32_to_string code, b < 128 := by
      intro b hb
      rcases i32_to_string_bytes hb with h | h <;> omega
    rw [utf8decode_ascii hDlt, Option.some_bind]
    have htrim : trimRust (i32_to_string code) = i32_to_string code := by
      apply trimRust_of_no_ws
      intro c hc
      rcases i32_to_string_bytes hc with h | h
      · subst h; decide
      · simp only [isRustWs, Bool.or_eq_false_iff, beq_eq_false_iff_ne, ne_eq,
          Bool.and_eq_false_iff, decide_eq_false_iff_not, not_le]
        omega
    rw [htrim]
    exact parseI32_round_trip hlo hhi
  simp only [parse_execution_output, hstdout, hstderr, hexit]

/-! ## All-or-nothing fallback and totality -/

/-- All-or-nothing fallback (claim C2): whenever any one of the three
extractions fails, the parser returns exactly the raw bytes, an empty stderr
and exit code `-1` — never a partially recovered result. -/
theorem parse_execution_output_fallback {raw : List Nat}
    (h : extract_b64_section raw SOS SOE = none ∨
      extract_b64_section raw SES SEE = none ∨ extract_exit_code raw = none) :
    parse_execution_output raw = (raw, [], -1) := by
  unfold parse_execution_output
  rcases hs : extract_b64_section raw SOS SOE with _ | o <;>
    rcases ht : extract_b64_section raw SES SEE with _ | e <;>
      rcases he : extract_exit_code raw with _ | c <;>
        simp_all

/-! ### Totality: the checked model

Rust slicing (`raw[a..]`, `raw[a..b]`, `rest[..v]`) panics when an index is
out of range.  `slice?` makes that explicit; the `_checked` functions return
`Except Unit _`, with `.error ()` standing for a panic.  Proving them equal
to an `.ok` of the plain functions shows every index stays in range on every
input.
-/

/-- Rust slice `s[a..b]`: defined only when `a ≤ b ≤ s.len()`. -/
def slice? (s : List Nat) (a b : Nat) : Option (List Nat) :=
  if a ≤ b ∧ b ≤ s.length then some ((s.drop a).take (b - a)) else none

def extract_b64_section_checked (raw sm em : List Nat) : Except Unit (Option (List Nat)) :=
  match findSub raw (sm ++ CRLF) with
  | none => .ok none
  | some pos =>
    match slice? raw (pos + (sm ++ CRLF).length) raw.length with
    | none => .error ()
    | some tail =>
      match findSub tail em with
      | none => .ok none
      | some q =>
        match slice? raw (pos + (sm ++ CRLF).length) (q + (pos + (sm ++ CRLF).length)) with
        | none => .error ()
        | some content => .ok (b64decode (content.filter fun b => b != 13 && b != 10))

def extract_exit_code_checked (raw : List Nat) : Except Unit (Option Int) :=
  match findSub raw EXITM with
  | none => .ok none
  | some pos =>
    match slice? raw (pos + EXITM.length) raw.length with
    | none => .error ()
    | some rest =>
      match slice? rest 0 ((firstIdxWhere (fun b => b == 13 || b == 10) rest).getD
          rest.length) with
      | none => .error ()
      | some v =>
        .ok (match utf8decode v with
          | none => none
          | some cps => parseI32 (trimRust cps))

def parse_execution_output_checked (raw : List Nat) :
    Except Unit (List Nat × List Nat × Int) :=
  match extract_b64_section_checked raw SOS SOE with
  | .error () => .error ()
  | .ok stdout =>
    match extract_b64_section_checked raw SES SEE with
    | .error () => .error ()
    | .ok stderr =>
      match extract_exit_code_checked raw with
      | .error () => .error ()
      | .ok exit_code =>
        .ok (match stdout, stderr, exit_code with
          | some o, some e, some c => (o, e, c)
          | _, _, _ => (raw, [], -1))

theorem slice?_suffix {s : List Nat} {a : Nat} (ha : a ≤ s.length) :
    slice? s a s.length = some (s.drop a) := by
  unfold slice?
  rw [if_pos ⟨ha, Nat.le_refl _⟩]
  congr 1
  apply List.take_of_length_le
  rw [List.length_drop]

theorem firstIdxWhere_getD_le (p : Nat → Bool) (l : List Nat) :
    (firstIdxWhere p l).getD l.length ≤ l.length := by
  induction l with
  | nil => simp [firstIdxWhere]
  | cons a t ih =>
    unfold firstIdxWhere
    by_cases hp : p a
    · simp [hp]
    · rw [if_neg hp]
      cases hfi : firstIdxWhere p t with
      | none => simp [hfi]
      | some i =>
        simp only [hfi, Option.getD_some] at ih
        simp only [Option.map_some', Option.getD_some, List.length_cons]
        omega

theorem extract_b64_section_checked_ok (raw sm em : List Nat) :
    extract_b64_section_checked raw sm em = .ok (extract_b64_section raw sm em) := by
  cases hf : findSub raw (sm ++ CRLF) with
  | none => simp [extract_b64_section_checked, extract_b64_section, hf]
  | some pos =>
    have hle := findSub_some_le hf
    have h1 : slice? raw (pos + (sm ++ CRLF).length) raw.length =
        some (raw.drop (pos + (sm ++ CRLF).length)) := slice?_suffix (by omega)
    cases hq : findSub (raw.drop (pos + (sm ++ CRLF).length)) em with
    | none =>
      simp only [extract_b64_section_checked, extract_b64_section, hf, h1, hq,
        Option.some_bind, Option.none_bind]
    | some q =>
      have hle2 := findSub_some_le hq
      rw [List.length_drop] at hle2
      have h2 : slice? raw (pos + (sm ++ CRLF).length)
          (q + (pos + (sm ++ CRLF).length)) =
          some ((raw.drop (pos + (sm ++ CRLF).length)).take q) := by
        unfold slice?
        rw [if_pos ⟨by omega, by omega⟩]
        have he : q + (pos + (sm ++ CRLF).length) - (pos + (sm ++ CRLF).length) = q := by
          omega
        rw [he]
      simp only [extract_b64_section_checked, extract_b64_section, hf, h1, hq, h2,
        Option.some_bind]

theorem extract_exit_code_checked_ok (raw : List Nat) :
    extract_exit_code_checked raw = .ok (extract_exit_code raw) := by
  cases hf : findSub raw EXITM with
  | none => simp [extract_exit_code_checked, extract_exit_code, hf]
  | some pos =>
    have hle := findSub_some_le hf
    have h1 : slice? raw (pos + EXITM.length) raw.length =
        some (raw.drop (pos + EXITM.length)) := slice?_suffix (by omega)
    have h2 : slice? (raw.drop (pos + EXITM.length)) 0
        ((firstIdxWhere (fun b => b == 13 || b == 10)
          (raw.drop (pos + EXITM.length))).getD (raw.drop (pos + EXITM.length)).length) =
        some ((raw.drop (pos + EXITM.length)).take
          ((firstIdxWhere (fun b => b == 13 || b == 10)
            (raw.drop (pos + EXITM.length))).getD
              (raw.drop (pos + EXITM.length)).length)) := by
      unfold slice?
      rw [if_pos ⟨Nat.zero_le _, firstIdxWhere_getD_le _ _⟩]
      simp
    cases hu : utf8decode ((raw.drop (pos + EXITM.length)).take
        ((firstIdxWhere (fun b => b == 13 || b == 10)
          (raw.drop (pos + EXITM.length))).getD (raw.drop (pos + EXITM.length)).length)) with
    | none =>
      simp only [extract_exit_code_checked, extract_exit_code, hf, h1, h2, hu,
        Option.some_bind, Option.none_bind]
    | some cps =>
      simp only [extract_exit_code_checked, extract_exit_code, hf, h1, h2, hu,
        Option.some_bind]

/-- Parser totality and determinism (claim C9): on every input the parser
reaches a result without any out-of-range slice (no panic), and the result
is the one computed by the plain total function — so equal inputs give equal
triples. -/
theorem parse_execution_output_total (raw : List Nat) :
    parse_execution_output_checked raw = .ok (parse_execution_output raw) := by
  unfold parse_execution_output_checked parse_execution_output
  rw [extract_b64_section_checked_ok, extract_b64_section_checked_ok,
    extract_exit_code_checked_ok]

/-! ## SHA-256 and `compute_hash`

A full executable SHA-256 (FIPS 180-4) over byte lists, modelling the `sha2`
crate used by `forge-executor/src/runner.rs`; words are `Nat` reduced mod
`2^32`.
-/

def w32 (n : Nat) : Nat := n % 4294967296

def rotr32 (n x : Nat) : Nat := (x >>> n) ||| w32 (x <<< (32 - n))

def shCh (x y z : Nat) : Nat := (x &&& y) ^^^ ((4294967295 - w32 x) &&& z)

def shMaj (x y z : Nat) : Nat := (x &&& y) ^^^ (x &&& z) ^^^ (y &&& z)

def bigS0 (x : Nat) : Nat := rotr32 2 x ^^^ rotr32 13 x ^^^ rotr32 22 x

def bigS1 (x : Nat) : Nat := rotr32 6 x ^^^ rotr32 11 x ^^^ rotr32 25 x

def smlS0 (x : Nat) : Nat := rotr32 7 x ^^^ rotr32 18 x ^^^ (x >>> 3)

def smlS1 (x : Nat) : Nat := rotr32 17 x ^^^ rotr32 19 x ^^^ (x >>> 10)

def shaK : List Nat :=
  [1116352408, 1899447441, 3049323471, 3921009573, 961987163, 1508970993,
   2453635748, 2870763221, 3624381080, 310598401, 607225278, 1426881987,
   1925078388, 2162078206, 2614888103, 3248222580, 3835390401, 4022224774,
   264347078, 604807628, 770255983, 1249150122, 1555081692, 1996064986,
   2554220882, 2821834349, 2952996808, 3210313671, 3336571891, 3584528711,
   113926993, 338241895, 666307205, 773529912, 1294757372, 1396182291,
   1695183700, 1986661051, 2177026350, 2456956037, 2730485921, 2820302411,
   3259730800, 3345764771, 3516065817, 3600352804, 4094571909, 275423344,
   430227734, 506948616, 659060556, 883997877, 958139571, 1322822218,
   1537002063, 1747873779, 1955562222, 2024104815, 2227730452, 2361852424,
   2428436474, 2756734187, 3204031479, 3329325298]

def shaH0 : List Nat :=
  [1779033703, 3144134277, 1013904242, 2773480762,
   1359893119, 2600822924, 528734635, 1541459225]

def toWords : List Nat → List Nat
  | b1 :: b2 :: b3 :: b4 :: rest =>
    (b1 * 16777216 + b2 * 65536 + b3 * 256 + b4) :: toWords rest
  | _ => []

def fullSchedule (ws : List Nat) : List Nat :=
  (List.range 48).foldl (fun acc _ =>
    acc ++ [w32 (smlS1 (acc.getD (acc.length - 2) 0) + acc.getD (acc.length - 7) 0 +
      smlS0 (acc.getD (acc.length - 15) 0) + acc.getD (acc.length - 16) 0)]) ws

def shaCompress (h : List Nat) (block : List Nat) : List Nat :=
  let ws := fullSchedule (toWords block)
  let final := (List.range 64).foldl (fun st t =>
    let a := st.getD 0 0
    let b := st.getD 1 0
    let c := st.getD 2 0
    let d := st.getD 3 0
    let e := st.getD 4 0
    let f := st.getD 5 0
    let g := st.getD 6 0
    let hh := st.getD 7 0
    let t1 := w32 (hh + bigS1 e + shCh e f g + shaK.getD t 0 + ws.getD t 0)
    let t2 := w32 (bigS0 a + shMaj a b c)
    [w32 (t1 + t2), a, b, c, w32 (d + t1), e, f, g]) h
  List.zipWith (fun x y => w32 (x + y)) h final

def beBytes8 (n : Nat) : List Nat :=
  [n / 72057594037927936 % 256, n / 281474976710656 % 256, n / 1099511627776 % 256,
   n / 4294967296 % 256, n / 16777216 % 256, n / 65536 % 256, n / 256 % 256, n % 256]

def sha256pad (ms : List Nat) : List Nat :=
  ms ++ 128 :: (List.replicate ((119 - ms.length % 64) % 64) 0 ++ beBytes8 (8 * ms.length))

def chunks64Fuel : Nat → List Nat → List (List Nat)
  | _, [] => []
  | 0, _ :: _ => []
  | fuel + 1, a :: t => ((a :: t).take 64) :: chunks64Fuel fuel ((a :: t).drop 64)

/-- Split into 64-byte blocks; the fuel (one unit per leading byte) always
suffices because every step consumes at least one byte. -/
def chunks64 (l : List Nat) : List (List Nat) := chunks64Fuel l.length l

def sha256 (ms : List Nat) : List Nat :=
  ((chunks64 (sha256pad ms)).foldl shaCompress shaH0).foldr
    (fun w acc => w / 16777216 % 256 :: w / 65536 % 256 :: w / 256 % 256 :: w % 256 :: acc) []

set_option maxRecDepth 4096 in
/-- SHA-256 of the empty message, pinned to the FIPS test vector the runner's
own test suite uses (`e3b0c442...`). -/
theorem sha256_empty :
    sha256 [] = [227, 176, 196, 66, 152, 252, 28, 20, 154, 251, 244, 200, 153, 111, 185, 36, 39, 174, 65, 228, 100, 155, 147, 76, 164, 149, 153, 27, 120, 82, 184, 85] := by decide

/-- `compute_hash` from `forge-executor/src/runner.rs`: the SHA-256 of
`stdout` and `stderr` hashed in sequence, i.e. of their concatenation. -/
def compute_hash (stdout stderr : List Nat) : List Nat := sha256 (stdout ++ stderr)

/-- The message `compute_hash stdout stderr` feeds to SHA-256. -/
def hashInput (stdout stderr : List Nat) : List Nat := stdout ++ stderr

/-- Hash ordering counterexample (claim C3): the claim "for all `a ≠ b`,
`compute_hash a b ≠ compute_hash b a`" fails at `a = [0]`, `b = [0, 0]`:
the two calls hash the same concatenation `[0, 0, 0]`, so the digests are
equal although `a ≠ b`. -/
theorem compute_hash_ordering_counterexample :
    ([0] : List Nat) ≠ [0, 0] ∧ compute_hash [0] [0, 0] = compute_hash [0, 0] [0] :=
  ⟨by decide, rfl⟩

/-- Hash ordering, amended (claim C3): `compute_hash a b` is SHA-256 of the
message `a ++ b`, and for `a ≠ b` of equal length swapping the arguments
changes that message (`a ++ b ≠ b ++ a`); when the arguments commute
(e.g. `a = [0]`, `b = [0, 0]`) the two digests coincide. -/
theorem compute_hash_ordering_amended (a b : List Nat) (hne : a ≠ b)
    (hlen : a.length = b.length) :
    hashInput a b ≠ hashInput b a ∧ compute_hash a b = sha256 (hashInput a b) := by
  refine ⟨?_, rfl⟩
  intro h
  apply hne
  have h' : a ++ b = b ++ a := h
  have h2 := congrArg (List.take a.length) h'
  rw [List.take_left] at h2
  rw [hlen] at h2
  rw [List.take_left] at h2
  exact h2

theorem compute_hash_ordering_amended_witness :
    ([1] : List Nat) ≠ [2] ∧ ([1] : List Nat).length = ([2] : List Nat).length ∧
    (hashInput [1] [2] ≠ hashInput [2] [1] ∧
      compute_hash [1] [2] = sha256 (hashInput [1] [2])) :=
  ⟨by decide, by decide, compute_hash_ordering_amended [1] [2] (by decide) (by decide)⟩

/-! ## VmConfig and the boot arguments built by `execute_command` -/

structure VmConfig where
  kernel_path : String
  rootfs_path : String
  vcpu_count : Nat
  mem_size_mib : Nat
  boot_args : String

/-- `VmConfig::new` from `forge-executor/src/config.rs`. -/
def VmConfig.new (kernel_path rootfs_path : String) : VmConfig :=
  { kernel_path := kernel_path, rootfs_path := rootfs_path, vcpu_count := 1,
    mem_size_mib := 128, boot_args := "console=ttyS0 reboot=k panic=1 pci=off" }

/-- The in-guest init script `execute_command` composes around the command. -/
def init_script (command : String) : String :=
  "SF=$(mktemp);EF=$(mktemp);eval \"" ++ command ++
  "\" >\"$SF\" 2>\"$EF\";EC=$?;echo FORGE_STDOUT_B64_START;base64 \"$SF\";echo FORGE_STDOUT_B64_END;echo FORGE_STDERR_B64_START;base64 \"$EF\";echo FORGE_STDERR_B64_END;echo FORGE_EXIT:$EC;poweroff -f 2>/dev/null||reboot -f"

/-- The `boot_args` value `execute_command` puts into the config it sends to
`PUT /boot-source`.  The source hardcodes the base arguments (with `quiet`)
and never reads `config.boot_args`. -/
def execute_command_boot_args (config : VmConfig) (command : String) : String :=
  "console=ttyS0 reboot=k panic=1 pci=off quiet init=/bin/sh -c \"" ++
    init_script command ++ "\""

set_option maxRecDepth 8192 in
/-- Boot-args counterexample (claim C4): even for the default configuration,
the boot arguments sent to the VMM are not the configuration's base boot args
plus the init clause — the code hardcodes the base and inserts `quiet`. -/
theorem execute_command_boot_args_counterexample :
    execute_command_boot_args (VmConfig.new "/k" "/r") "true" ≠
      (VmConfig.new "/k" "/r").boot_args ++ " init=/bin/sh -c \"" ++
        init_script "true" ++ "\"" := by
  decide

set_option maxRecDepth 8192 in
/-- Boot args, amended (claim C4): the kernel boot arguments passed to
`PUT /boot-source` are the fixed string `console=ttyS0 reboot=k panic=1
pci=off quiet` — independent of the configuration, whose own default is the
same base without `quiet` — followed by `init=/bin/sh -c "<init script>"`,
where the init script emits the stdout marker pair around `base64 "$SF"`,
then the stderr marker pair around `base64 "$EF"`, then `FORGE_EXIT:$EC`,
in that order. -/
theorem execute_command_boot_args_amended (config : VmConfig) (command : String)
    (k r : String) :
    execute_command_boot_args config command =
      "console=ttyS0 reboot=k panic=1 pci=off quiet init=/bin/sh -c \"" ++
        init_script command ++ "\"" ∧
    (∀ c1 c2 : VmConfig,
      execute_command_boot_args c1 command = execute_command_boot_args c2 command) ∧
    (VmConfig.new k r).boot_args = "console=ttyS0 reboot=k panic=1 pci=off" ∧
    init_script command =
      "SF=$(mktemp);EF=$(mktemp);eval \"" ++ command ++
        ("\" >\"$SF\" 2>\"$EF\";EC=$?;" ++
         "echo FORGE_STDOUT_B64_START;" ++ "base64 \"$SF\";" ++
         "echo FORGE_STDOUT_B64_END;" ++
         "echo FORGE_STDERR_B64_START;" ++ "base64 \"$EF\";" ++
         "echo FORGE_STDERR_B64_END;" ++
         "echo FORGE_EXIT:$EC;" ++ "poweroff -f 2>/dev/null||reboot -f") := by
  refine ⟨rfl, fun c1 c2 => rfl, rfl, ?_⟩
  exact congrArg
    (fun s => "SF=$(mktemp);EF=$(mktemp);eval \"" ++ command ++ s) (by decide)

/-! ## `health_check` and `which_binary` -/

inductive ExecutorError where
  | binaryNotFound (path : String)
  | kvmUnavailable (reason : String)
  | spawnFailed (msg : String)
  | snapshotFailed (vmId : Nat) (reason : String)
  | restoreFailed (snapshotId : Nat) (reason : String)
  | apiError (msg : String)
  | vmNotFound (vmId : Nat)
  | ioFailed (msg : String)
deriving DecidableEq

/-- The parts of the host environment `health_check` consults: `/dev/kvm`
existence, the metadata stat on it, file existence, and the `PATH` variable. -/
structure SysEnv where
  devKvmExists : Bool
  devKvmMetadataOk : Bool
  fileExists : String → Bool
  pathVar : Option String

/-- Unix `Path::is_absolute`: the path begins with `/`. -/
def path_is_absolute (p : String) : Bool :=
  match p.toList with
  | [] => false
  | c :: _ => c == '/'

/-- `Path::new(dir).join(p)` for the relative `p` used by `which_binary`. -/
def path_join (dir p : String) : String :=
  if path_is_absolute p then p
  else if dir = "" then p
  else if dir.endsWith "/" then dir ++ p
  else dir ++ "/" ++ p

/-- `which_binary`: an absolute path must exist; otherwise try every entry of
`PATH` (missing `PATH` behaves as the empty string). -/
def which_binary (env : SysEnv) (path : String) : Except ExecutorError Unit :=
  if path_is_absolute path then
    if env.fileExists path then .ok () else .error (.binaryNotFound path)
  else
    if ((env.pathVar.getD "").splitOn ":").any (fun dir => env.fileExists (path_join dir path))
    then .ok ()
    else .error (.binaryNotFound path)

/-- `health_check`: KVM existence, then KVM metadata, then binary resolution. -/
def health_check (env : SysEnv) (binary_path : String) : Except ExecutorError Unit :=
  if !env.devKvmExists then .error (.kvmUnavailable "/dev/kvm not found")
  else if !env.devKvmMetadataOk then
    .error (.kvmUnavailable "cannot access /dev/kvm (permission denied?)")
  else which_binary env binary_path

/-- The claim's notion of "the configured VMM binary resolves". -/
def binary_resolves (env : SysEnv) (path : String) : Prop :=
  if path_is_absolute path then env.fileExists path = true
  else ∃ dir ∈ (env.pathVar.getD "").splitOn ":",
    env.fileExists (path_join dir path) = true

theorem which_binary_ok_iff (env : SysEnv) (p : String) :
    which_binary env p = .ok () ↔ binary_resolves env p := by
  unfold which_binary binary_resolves
  by_cases habs : path_is_absolute p
  · rw [if_pos habs, if_pos habs]
    cases hf : env.fileExists p <;> simp [hf]
  · rw [if_neg habs, if_neg habs]
    cases ha : ((env.pathVar.getD "").splitOn ":").any
        (fun dir => env.fileExists (path_join dir p)) with
    | false =>
      rw [List.any_eq_false] at ha
      simp only [Bool.false_eq_true, if_false, false_iff]
      constructor
      · intro h; cases h
      · rintro ⟨dir, hdir, hex⟩
        exact absurd hex (by simpa using ha dir hdir)
    | true =>
      simp only [if_pos rfl, true_iff]
      rw [List.any_eq_true] at ha
      obtain ⟨dir, hdir, hex⟩ := ha
      constructor
      · intro _
        exact ⟨dir, hdir, by simpa using hex⟩
      · intro _
        rfl

theorem which_binary_cases (env : SysEnv) (p : String) :
    which_binary env p = .ok () ∨ which_binary env p = .error (.binaryNotFound p) := by
  unfold which_binary
  split_ifs <;> simp

/-- Health check (claim C5): success exactly when `/dev/kvm` exists, its
metadata stat succeeds, and the binary resolves (absolute path on disk, or
relative name through some `PATH` entry); the first failing condition in
that order fixes the error: `KvmUnavailable` for either KVM check,
`BinaryNotFound` for the binary check. -/
theorem health_check_spec (env : SysEnv) (binary_path : String) :
    (health_check env binary_path = .ok () ↔
      env.devKvmExists = true ∧ env.devKvmMetadataOk = true ∧
        binary_resolves env binary_path) ∧
    (env.devKvmExists = false →
      health_check env binary_path = .error (.kvmUnavailable "/dev/kvm not found")) ∧
    (env.devKvmExists = true → env.devKvmMetadataOk = false →
      health_check env binary_path =
        .error (.kvmUnavailable "cannot access /dev/kvm (permission denied?)")) ∧
    (env.devKvmExists = true → env.devKvmMetadataOk = true →
      ¬ binary_resolves env binary_path →
      health_check env binary_path = .error (.binaryNotFound binary_path)) := by
  refine ⟨⟨?_, ?_⟩, ?_, ?_, ?_⟩
  · intro h
    cases hk : env.devKvmExists with
    | false => simp [health_check, hk] at h
    | true =>
      cases hm : env.devKvmMetadataOk with
      | false => simp [health_check, hk, hm] at h
      | true =>
        refine ⟨rfl, rfl, ?_⟩
        rw [← which_binary_ok_iff]
        simpa [health_check, hk, hm] using h
  · rintro ⟨hk, hm, hres⟩
    simpa [health_check, hk, hm] using (which_binary_ok_iff env binary_path).mpr hres
  · intro hk
    simp [health_check, hk]
  · intro hk hm
    simp [health_check, hk, hm]
  · intro hk hm hres
    rcases which_binary_cases env binary_path with h | h
    · exact absurd ((which_binary_ok_iff env binary_path).mp h) hres
    · simpa [health_check, hk, hm] using h

/-- A host with KVM available but no binary anywhere: used as the concrete
witness environment. -/
def envNoBinary : SysEnv :=
  { devKvmExists := true, devKvmMetadataOk := true,
    fileExists := fun _ => false, pathVar := none }

theorem health_check_spec_witness :
    envNoBinary.devKvmExists = true ∧ envNoBinary.devKvmMetadataOk = true ∧
    health_check envNoBinary "firecracker" = .error (.binaryNotFound "firecracker") := by
  refine ⟨rfl, rfl, ?_⟩
  apply (health_check_spec envNoBinary "firecracker").2.2.2 rfl rfl
  unfold binary_resolves
  rw [if_neg (by decide)]
  rintro ⟨dir, hdir, hex⟩
  cases hex

/-! ## The snapshot protocol of `FirecrackerBackend::snapshot`

The control-API calls are modelled by their outcomes (`SnapApi`), and the
embedded function returns both the operation's result and the list of
requests it attempted, in order.
-/

inductive FcReq where
  | patchVm (state : String)
  | putSnapshotCreate
deriving DecidableEq

/-- Outcomes of the three control-API calls `snapshot` can issue. -/
structure SnapApi where
  pauseResult : Except String Unit
  createResult : Except String Unit
  resumeResult : Except String Unit

/-- `FirecrackerBackend::snapshot`: pause; create (result captured); then the
resume PATCH is attempted unconditionally and its outcome discarded; finally
the create result decides between `SnapshotFailed` and the fresh id. -/
def fc_snapshot (api : SnapApi) (vmId snapshotId : Nat) :
    Except ExecutorError Nat × List FcReq :=
  match api.pauseResult with
  | .error e =>
    (.error (.snapshotFailed vmId ("pause failed: " ++ e)), [.patchVm "Paused"])
  | .ok _ =>
    match api.createResult with
    | .error e =>
      (.error (.snapshotFailed vmId e),
        [.patchVm "Paused", .putSnapshotCreate, .patchVm "Resumed"])
    | .ok _ =>
      (.ok snapshotId,
        [.patchVm "Paused", .putSnapshotCreate, .patchVm "Resumed"])

/-- Snapshot resume discipline (claim C6): once the pause PATCH succeeded, the
`Resumed` PATCH is attempted whether or not the create step succeeded, its
outcome never changes the result, and the result is `SnapshotFailed` with the
handle's id and the create failure's reason, or the fresh snapshot id. -/
theorem fc_snapshot_resume_unconditional (api : SnapApi) (vmId snapshotId : Nat)
    (hp : api.pauseResult = .ok ()) :
    FcReq.patchVm "Resumed" ∈ (fc_snapshot api vmId snapshotId).2 ∧
    (∀ r1 r2 : Except String Unit,
      (fc_snapshot { api with resumeResult := r1 } vmId snapshotId).1 =
        (fc_snapshot { api with resumeResult := r2 } vmId snapshotId).1) ∧
    (∀ e, api.createResult = .error e →
      (fc_snapshot api vmId snapshotId).1 = .error (.snapshotFailed vmId e)) ∧
    (api.createResult = .ok () →
      (fc_snapshot api vmId snapshotId).1 = .ok snapshotId) := by
  cases hc : api.createResult with
  | error e => simp [fc_snapshot, hp, hc]
  | ok u => cases u; simp [fc_snapshot, hp, hc]

/-- Concrete API outcomes for the snapshot witness: pause succeeds, create
fails, resume also fails. -/
def snapApiCreateFails : SnapApi :=
  { pauseResult := .ok (), createResult := .error "create refused",
    resumeResult := .error "socket gone" }

theorem fc_snapshot_resume_unconditional_witness :
    snapApiCreateFails.pauseResult = .ok () ∧
    FcReq.patchVm "Resumed" ∈ (fc_snapshot snapApiCreateFails 7 9).2 ∧
    (fc_snapshot snapApiCreateFails 7 9).1 =
      .error (.snapshotFailed 7 "create refused") := by
  have h := fc_snapshot_resume_unconditional snapApiCreateFails 7 9 rfl
  exact ⟨rfl, h.1, h.2.2.1 "create refused" rfl⟩

/-! ## The orchestrator registry -/

/-- `VmOrchestrator::snapshot`: result, registry afterwards, and whether the
backend was invoked. -/
def orch_snapshot (backendSnapshot : Except ExecutorError Nat)
    (registry : Finset Nat) (handleId : Nat) :
    Except ExecutorError Nat × Finset Nat × Bool :=
  if handleId ∈ registry then (backendSnapshot, registry, true)
  else (.error (.vmNotFound handleId), registry, false)

/-- `VmOrchestrator::terminate`: result, registry afterwards, and whether the
backend was invoked.  The id is erased only after a successful backend
terminate. -/
def orch_terminate (backendTerminate : Except ExecutorError Unit)
    (registry : Finset Nat) (handleId : Nat) :
    Except ExecutorError Unit × Finset Nat × Bool :=
  if handleId ∈ registry then
    match backendTerminate with
    | .ok _ => (.ok (), registry.erase handleId, true)
    | .error e => (.error e, registry, true)
  else (.error (.vmNotFound handleId), registry, false)

/-- Registry guard (claim C7): for an unregistered id both operations fail
with `VmNotFound` of that id, never invoke the backend and leave the registry
unchanged; for a registered id, terminate deregisters the id exactly when the
backend terminate succeeds, and keeps the registry unchanged when it fails. -/
theorem orchestrator_registry_guard (bs : Except ExecutorError Nat)
    (bt : Except ExecutorError Unit) (registry : Finset Nat) (handleId : Nat) :
    (handleId ∉ registry →
      orch_snapshot bs registry handleId =
        (.error (.vmNotFound handleId), registry, false) ∧
      orch_terminate bt registry handleId =
        (.error (.vmNotFound handleId), registry, false)) ∧
    (handleId ∈ registry →
      (handleId ∉ (orch_terminate bt registry handleId).2.1 ↔ bt = .ok ()) ∧
      (∀ e, bt = .error e → (orch_terminate bt registry handleId).2.1 = registry)) := by
  constructor
  · intro hno
    exact ⟨by simp [orch_snapshot, hno], by simp [orch_terminate, hno]⟩
  · intro hyes
    cases bt with
    | ok u =>
      cases u
      simp [orch_terminate, hyes, Finset.not_mem_erase]
    | error e =>
      simp [orch_terminate, hyes]

theorem orchestrator_registry_guard_witness :
    ((5 : Nat) ∉ ({3} : Finset Nat)) ∧
    orch_snapshot (.ok 1) {3} 5 = (.error (.vmNotFound 5), {3}, false) ∧
    ((3 : Nat) ∈ ({3} : Finset Nat)) ∧
    (3 : Nat) ∉ (orch_terminate (.ok ()) {3} 3).2.1 := by
  refine ⟨by decide, ?_, by decide, ?_⟩
  · exact ((orchestrator_registry_guard (.ok 1) (.ok ()) {3} 5).1 (by decide)).1
  · exact (((orchestrator_registry_guard (.ok 1) (.ok ()) {3} 3).2 (by decide)).1).mpr rfl

/-- `VmOrchestrator::spawn`: insert the returned id only on success. -/
def orch_spawn (backendSpawn : Except ExecutorError Nat) (registry : Finset Nat) :
    Except ExecutorError Nat × Finset Nat :=
  match backendSpawn with
  | .error e => (.error e, registry)
  | .ok vmId => (.ok vmId, insert vmId registry)

/-- `VmOrchestrator::active_count`. -/
def active_count (registry : Finset Nat) : Nat := registry.card

/-- Spawn atomicity (claim C8): a failing backend spawn propagates exactly and
leaves the registry, hence `active_count`, unchanged (0 for a fresh
orchestrator); membership can only appear through a successful spawn. -/
theorem orch_spawn_atomic (bs : Except ExecutorError Nat) (registry : Finset Nat) :
    (∀ e, bs = .error e →
      orch_spawn bs registry = (.error e, registry) ∧
      active_count (orch_spawn bs registry).2 = active_count registry) ∧
    (∀ vmId, vmId ∈ (orch_spawn bs registry).2 → vmId ∈ registry ∨ bs = .ok vmId) ∧
    active_count (∅ : Finset Nat) = 0 := by
  refine ⟨?_, ?_, rfl⟩
  · rintro e rfl
    simp [orch_spawn, active_count]
  · intro vmId hmem
    cases hb : bs with
    | error e =>
      left
      simpa [orch_spawn, hb] using hmem
    | ok newId =>
      rw [hb] at hmem
      simp only [orch_spawn, Finset.mem_insert] at hmem
      rcases hmem with rfl | h
      · right; rfl
      · left; exact h

theorem orch_spawn_atomic_witness :
    ((.error (.spawnFailed "mock") : Except ExecutorError Nat) =
      .error (.spawnFailed "mock")) ∧
    orch_spawn (.error (.spawnFailed "mock")) ∅ = (.error (.spawnFailed "mock"), ∅) ∧
    active_count (orch_spawn (.error (.spawnFailed "mock")) ∅).2 = active_count ∅ := by
  refine ⟨rfl, ?_⟩
  exact (orch_spawn_atomic (.error (.spawnFailed "mock")) ∅).1 (.spawnFailed "mock") rfl

/-! ## `ExecutionRecord::new` and `BlockRunner::execute` -/

inductive ExecutionStatus where
  | pending
  | running
  | succeeded
  | failed (reason : String)
deriving DecidableEq

structure ExecutionRecord where
  id : Nat
  block_id : Nat
  user_id : String
  input_hash : List Nat
  output_hash : List Nat
  started_at : Nat
  duration : Nat
  vm_snapshot_id : Option Nat
  status : ExecutionStatus

/-- `ExecutionRecord::new` from `forge-core/src/execution.rs`; the randomly
generated `ExecutionId` is passed in as `freshId`.  The optional snapshot id
is always set to `None`. -/
def ExecutionRecord.new (freshId blockId : Nat) (userId : String)
    (inputHash outputHash : List Nat) (startedAt duration : Nat)
    (status : ExecutionStatus) : ExecutionRecord :=
  { id := freshId, block_id := blockId, user_id := userId,
    input_hash := inputHash, output_hash := outputHash,
    started_at := startedAt, duration := duration,
    vm_snapshot_id := none, status := status }

/-- The triple the backend returns from `execute_command`. -/
structure ExecutionOutput where
  stdout : List Nat
  stderr : List Nat
  exit_code : Int

/-- A single-quote character, for shell quoting. -/
def squote : String := String.mk ['\x27']

/-- `build_command` from `forge-executor/src/runner.rs`: single-quote the
block name behind `echo`. -/
def build_command (block_name : String) : String :=
  "echo " ++ squote ++ block_name ++ squote

/-- `BlockRunner::execute`: hash the input, run the built command through the
backend, and construct a `Succeeded` record; backend errors propagate.  The
backend is abstracted as a function from the command string to an outcome,
and the wall clock by the `startedAt`/`duration` parameters. -/
def block_runner_execute (freshId : Nat)
    (backend : String → Except ExecutorError ExecutionOutput)
    (blockId : Nat) (blockName : String) (input : List Nat)
    (startedAt duration : Nat) : Except ExecutorError ExecutionRecord :=
  match backend (build_command blockName) with
  | .error e => .error e
  | .ok output =>
    .ok (ExecutionRecord.new freshId blockId "forge-runner"
      (compute_hash input []) (compute_hash output.stdout output.stderr)
      startedAt duration .succeeded)

/-- Runner records (claim C10): every record `BlockRunner::execute` returns
has `vm_snapshot_id = none` and status `Succeeded`; `ExecutionRecord::new`
never populates the snapshot id; and backend errors propagate unchanged
instead of producing `Failed` records. -/
theorem block_runner_execute_record (freshId blockId : Nat)
    (backend : String → Except ExecutorError ExecutionOutput)
    (blockName : String) (input : List Nat) (startedAt duration : Nat) :
    (∀ rec, block_runner_execute freshId backend blockId blockName input
        startedAt duration = .ok rec →
      rec.vm_snapshot_id = none ∧ rec.status = .succeeded) ∧
    (∀ fid bid uid ih oh st d stat,
      (ExecutionRecord.new fid bid uid ih oh st d stat).vm_snapshot_id = none) ∧
    (∀ e, backend (build_command blockName) = .error e →
      block_runner_execute freshId backend blockId blockName input
        startedAt duration = .error e) := by
  refine ⟨?_, fun fid bid uid ih oh st d stat => rfl, ?_⟩
  · intro rec hrec
    cases hb : backend (build_command blockName) with
    | error e => simp [block_runner_execute, hb] at hrec
    | ok output =>
      simp only [block_runner_execute, hb, Except.ok.injEq] at hrec
      subst hrec
      exact ⟨rfl, rfl⟩
  · intro e hb
    simp [block_runner_execute, hb]

theorem block_runner_execute_record_witness :
    block_runner_execute 0 (fun _ => .ok ⟨[104], [], 0⟩) 1 "git-env" [] 5 6 =
      .ok (ExecutionRecord.new 0 1 "forge-runner" (compute_hash [] [])
        (compute_hash [104] []) 5 6 .succeeded) ∧
    (ExecutionRecord.new 0 1 "forge-runner" (compute_hash [] [])
        (compute_hash [104] []) 5 6 .succeeded).vm_snapshot_id = none ∧
    (ExecutionRecord.new 0 1 "forge-runner" (compute_hash [] [])
        (compute_hash [104] []) 5 6 .succeeded).status = .succeeded := by
  refine ⟨rfl, ?_⟩
  exact (block_runner_execute_record 0 1 (fun _ => .ok ⟨[104], [], 0⟩) "git-env" [] 5 6).1
    (ExecutionRecord.new 0 1 "forge-runner" (compute_hash [] [])
      (compute_hash [104] []) 5 6 .succeeded) rfl

/-! ## Witnesses for the parser claims -/

theorem parser_round_trip_witness :
    (∀ b ∈ ([0, 255, 70] : List Nat), b < 256) ∧
    (∀ b ∈ ([104] : List Nat), b < 256) ∧
    (-2147483648 ≤ (-42 : Int)) ∧ ((-42 : Int) ≤ 2147483647) ∧
    parse_execution_output (encode_execution_output [0, 255, 70] [104] (-42)) =
      ([0, 255, 70], [104], -42) :=
  ⟨by decide, by decide, by decide, by decide,
    parser_round_trip [0, 255, 70] [104] (-42) (by decide) (by decide)
      (by decide) (by decide)⟩

theorem parse_execution_output_fallback_witness :
    (extract_b64_section [] SOS SOE = none ∨ extract_b64_section [] SES SEE = none ∨
      extract_exit_code [] = none) ∧
    parse_execution_output [] = ([], [], -1) :=
  ⟨Or.inl (by decide), parse_execution_output_fallback (Or.inl (by decide))⟩
